import Mathlib

/-
  Verification of the axotly HTTP test runner core against its specification.

  The Rust sources are embedded shallowly:
  - pure functions become Lean functions;
  - external effects (the network send, serde_json parsing, Url parsing)
    become explicit parameters, so every statement is universally
    quantified over their behaviour;
  - i64 becomes Int (the engine only compares numbers, it never does
    arithmetic, so no overflow can occur);
  - Rust Result becomes Except, Option stays Option.

  The grammar file src/parser/grammar.pest is not present in the sources;
  the pieces of syntax extraction that it decides (the token shapes handed
  to the parse functions, and the BODY region capture) are modelled from
  the specification and are marked as such in their doc comments.
-/

deriving instance DecidableEq for Except

namespace Axotly

/-- A JSON number as the assertion engine observes it through
serde_json: the only operation the code performs on it is as_i64,
which yields the value when it fits in i64 and nothing otherwise. -/
structure JNumber where
  asI64 : Option Int

/-- The serde_json value tree (Null, Bool, Number, String, Array, Object). -/
inductive Json where
  | null : Json
  | bool (b : Bool) : Json
  | num (n : JNumber) : Json
  | str (s : String) : Json
  | arr (xs : List Json) : Json
  | obj (fields : List (String × Json)) : Json

/-- Association lookup in a JSON object, as serde_json Value::get does
for a string key on an object. -/
def lookupField : List (String × Json) → String → Option Json
  | [], _ => none
  | (k, v) :: rest, key => if k = key then some v else lookupField rest key

/-- serde_json Value::get with a string key: object lookup; every other
node kind (including arrays) yields None for a string key. -/
def Json.get : Json → String → Option Json
  | Json.obj fields, key => lookupField fields key
  | _, _ => none

/-- The authored value domain of the engine (assertion.rs, enum Value):
String, Number(i64), Bool. -/
inductive Value where
  | string (s : String) : Value
  | number (n : Int) : Value
  | bool (b : Bool) : Value
deriving DecidableEq

/-- True exactly on the Number variant. -/
def Value.isNumber : Value → Bool
  | Value.number _ => true
  | _ => false

/-- The single-quote character, used by the Rust format strings of the
failure messages. -/
def sq : String := String.singleton (Char.ofNat 39)

/-- Display for Value (assertion.rs impl fmt::Display): numbers in
decimal, booleans as true/false, strings wrapped in double quotes. -/
def Value.render : Value → String
  | Value.string s => "\"" ++ s ++ "\""
  | Value.number n => toString n
  | Value.bool b => if b then "true" else "false"

/-- Debug rendering of one character of a Rust string, as the derived
Debug of String escapes it (quote, backslash, and the common control
characters; other characters are kept as written). -/
def rustDebugChar (c : Char) : String :=
  if c = Char.ofNat 34 then "\\\""
  else if c = Char.ofNat 92 then "\\\\"
  else if c = Char.ofNat 10 then "\\n"
  else if c = Char.ofNat 13 then "\\r"
  else if c = Char.ofNat 9 then "\\t"
  else String.singleton c

/-- Debug rendering of a Rust String: the escaped text in double quotes. -/
def rustDebugString (s : String) : String :=
  "\"" ++ String.join (s.toList.map rustDebugChar) ++ "\""

/-- Derived Debug for Value (used by the In branch through
format with the debug specifier on a Vec of values). -/
def Value.debugStr : Value → String
  | Value.string s => "String(" ++ rustDebugString s ++ ")"
  | Value.number n => "Number(" ++ toString n ++ ")"
  | Value.bool b => "Bool(" ++ (if b then "true" else "false") ++ ")"

/-- Derived Debug for a Vec of values. -/
def valuesDebugStr (vs : List Value) : String :=
  "[" ++ String.intercalate ", " (vs.map Value.debugStr) ++ "]"

/-- The six comparison operators of the assertion language
(assertion.rs, enum Operator). -/
inductive Operator where
  | eq : Operator
  | ne : Operator
  | gt : Operator
  | lt : Operator
  | gte : Operator
  | lte : Operator
deriving DecidableEq

/-- Derived Debug for Operator, used in the Binary failure message. -/
def Operator.debugStr : Operator → String
  | Operator.eq => "Eq"
  | Operator.ne => "Ne"
  | Operator.gt => "Gt"
  | Operator.lt => "Lt"
  | Operator.gte => "Gte"
  | Operator.lte => "Lte"

/-- An assertion over a response (assertion.rs, enum Assertion).
The In variant is named inList because in is a Lean keyword; the
Exists variant is named existsOp. -/
inductive Assertion where
  | binary (path : String) (op : Operator) (value : Value) : Assertion
  | inList (path : String) (values : List Value) : Assertion
  | between (path : String) (min max : Value) : Assertion
  | existsOp (path : String) : Assertion
  | unary (path : String) : Assertion
deriving DecidableEq

/-- The path field common to all assertion variants. -/
def Assertion.path : Assertion → String
  | Assertion.binary p _ _ => p
  | Assertion.inList p _ => p
  | Assertion.between p _ _ => p
  | Assertion.existsOp p => p
  | Assertion.unary p => p

/-- A reported assertion failure (assertion.rs, struct AssertionFailure). -/
structure AssertionFailure where
  path : String
  expected : Option String
  actual : Option String
  message : String
deriving DecidableEq

/-- A request body (http_request.rs, enum Body). -/
inductive Body where
  | text (s : String) : Body
  | json (v : Json) : Body

/-- The HTTP request domain object (http_request.rs, struct HttpRequest).
The Url value is modelled by its string form; the header map by an
association list. -/
structure HttpRequest where
  method : String
  url : String
  headers : List (String × String)
  body : Option Body

/-- The captured HTTP response (http_request.rs, struct HttpResponse).
Duration is modelled as a Nat of elapsed time units. -/
structure HttpResponse where
  request : Option HttpRequest
  duration : Nat
  status : Nat
  headers : List (String × String)
  body : Option String

/-- Upper-casing of one character, ASCII range. -/
def asciiUpperChar (c : Char) : Char :=
  if 97 ≤ c.toNat ∧ c.toNat ≤ 122 then Char.ofNat (c.toNat - 32) else c

/-- Upper-casing of a string; models the Rust to_uppercase call, with
which it agrees on the ASCII method tokens at issue here. -/
def toUpperAscii (s : String) : String :=
  String.mk (s.toList.map asciiUpperChar)

/-- HttpRequest::new: the method argument is upper-cased here, headers
start empty and the body absent. -/
def HttpRequest.new (method : String) (url : String) : HttpRequest :=
  { method := toUpperAscii method, url := url, headers := [], body := none }

/-- Descend from a JSON node through a chain of keys, one get per key,
failing as soon as a key is absent (the for loop of resolve_path). -/
def descend : Json → List String → Option Json
  | j, [] => some j
  | j, k :: ks =>
    match j.get k with
    | some j2 => descend j2 ks
    | none => none

/-- The coercion of the final JSON node performed by resolve_path:
string, i64-fitting number, or boolean; everything else is None. -/
def jsonToValue : Json → Option Value
  | Json.str s => some (Value.string s)
  | Json.num n => n.asI64.map Value.number
  | Json.bool b => some (Value.bool b)
  | _ => none

/-- str::strip_prefix for the body-dot prefix: the rest of the path
when it starts with the five characters of the prefix, nothing
otherwise. -/
def stripBodyDot (path : String) : Option String :=
  match path.toList with
  | 'b' :: 'o' :: 'd' :: 'y' :: '.' :: rest => some (String.mk rest)
  | _ => none

/-- str::split on the dot character: chunks between dots, in order;
an empty input gives one empty chunk, as the Rust iterator does. -/
def splitDotsAux (acc : List Char) : List Char → List String
  | [] => [String.mk acc.reverse]
  | c :: rest =>
    if c = '.' then String.mk acc.reverse :: splitDotsAux [] rest
    else splitDotsAux (c :: acc) rest

/-- str::split on the dot character, from a string. -/
def splitDots (s : String) : List String :=
  splitDotsAux [] s.toList

/-- resolve_path (assertion.rs): status resolves to the numeric status;
body to the whole body string when present; a path with the body dot
prefix parses the body as JSON (the parser being serde_json, passed
here as the parseJson parameter) and descends key by key; any other
path is None. -/
def resolve_path (parseJson : String → Option Json)
    (response : HttpResponse) (path : String) : Option Value :=
  if path = "status" then
    some (Value.number (response.status : Int))
  else if path = "body" then
    response.body.map Value.string
  else
    match stripBodyDot path with
    | none => none
    | some rest =>
      match response.body with
      | none => none
      | some bodyStr =>
        match parseJson bodyStr with
        | none => none
        | some json =>
          match descend json (splitDots rest) with
          | none => none
          | some node => jsonToValue node

/-- compare (assertion.rs): Eq and Ne are structural over all variants;
the four order operators are defined only between two numbers and are
false in every other case. -/
def compare (op : Operator) (actual expected : Value) : Bool :=
  match op, actual, expected with
  | Operator.eq, a, b => decide (a = b)
  | Operator.ne, a, b => decide (a ≠ b)
  | Operator.gt, Value.number a, Value.number b => decide (a > b)
  | Operator.lt, Value.number a, Value.number b => decide (a < b)
  | Operator.gte, Value.number a, Value.number b => decide (a ≥ b)
  | Operator.lte, Value.number a, Value.number b => decide (a ≤ b)
  | _, _, _ => false

/-- The format string of the missing-path failure message. -/
def pathNotFoundMsg (path : String) : String :=
  "Path " ++ sq ++ path ++ sq ++ " not found"

/-- Assertion::check (assertion.rs): evaluate one assertion against a
response, producing unit on success and an AssertionFailure on failure,
each branch building exactly the record the source builds. -/
def Assertion.check (parseJson : String → Option Json)
    (a : Assertion) (response : HttpResponse) :
    Except AssertionFailure Unit :=
  match a with
  | Assertion.binary path op value =>
    match resolve_path parseJson response path with
    | none =>
      Except.error
        { path := path, expected := some value.render, actual := none,
          message := pathNotFoundMsg path }
    | some actual =>
      if compare op actual value then Except.ok ()
      else
        Except.error
          { path := path, expected := some value.render,
            actual := some actual.render,
            message := "Expected " ++ path ++ " " ++ op.debugStr ++ " "
              ++ value.render }
  | Assertion.existsOp path =>
    match resolve_path parseJson response path with
    | none =>
      Except.error
        { path := path, expected := some "exists", actual := none,
          message := "Expected " ++ sq ++ path ++ sq ++ " to exist" }
    | some _ => Except.ok ()
  | Assertion.unary path =>
    match resolve_path parseJson response path with
    | none =>
      Except.error
        { path := path, expected := some "true", actual := none,
          message := pathNotFoundMsg path }
    | some actual =>
      if actual = Value.bool true then Except.ok ()
      else
        Except.error
          { path := path, expected := some "true",
            actual := some actual.render,
            message := "Expected " ++ sq ++ path ++ sq ++ " to be true" }
  | Assertion.inList path values =>
    match resolve_path parseJson response path with
    | none =>
      Except.error
        { path := path, expected := some (valuesDebugStr values),
          actual := none, message := pathNotFoundMsg path }
    | some actual =>
      if values.any (fun v => decide (v = actual)) then Except.ok ()
      else
        Except.error
          { path := path, expected := some (valuesDebugStr values),
            actual := some actual.render,
            message := "Expected " ++ sq ++ path ++ sq ++ " to be in list" }
  | Assertion.between path min max =>
    match resolve_path parseJson response path with
    | none =>
      Except.error
        { path := path,
          expected := some ("between " ++ min.render ++ " and " ++ max.render),
          actual := none, message := pathNotFoundMsg path }
    | some actual =>
      match actual, min, max with
      | Value.number a, Value.number lo, Value.number hi =>
        if lo ≤ a ∧ a ≤ hi then Except.ok ()
        else
          Except.error
            { path := path,
              expected := some ("between " ++ min.render ++ " and "
                ++ max.render),
              actual := some (Value.number a).render,
              message := "Value not in range" }
      | _, _, _ =>
        Except.error
          { path := path,
            expected := some ("between " ++ min.render ++ " and "
              ++ max.render),
            actual := some actual.render,
            message := "Value not in range" }

/-- The outcome of one test run (test_case.rs, enum TestResult). -/
inductive TestResult where
  | passed (duration : Nat) : TestResult
  | failed (duration : Nat) (errors : List AssertionFailure) : TestResult

/-- A test case (test_case.rs, struct TestCase): the authored name,
request and assertion list, plus the execution-mutable response and
result fields. -/
structure TestCase where
  name : Option String
  request : HttpRequest
  response : Option HttpResponse
  assertions : List Assertion
  result : Option TestResult

/-- The error produced by one evaluated assertion, when there is one:
the body of the accumulation loop of TestCase::run. -/
def checkErr (parseJson : String → Option Json) (a : Assertion)
    (response : HttpResponse) : Option AssertionFailure :=
  match Assertion.check parseJson a response with
  | Except.error e => some e
  | Except.ok _ => none

/-- TestCase::run (test_case.rs). The network send is external, so its
outcome is passed in: an error carries the display string of the
transport error; elapsed is the measured duration. A transport error
sets a Failed result with the single synthetic request failure and
returns at once, before any assertion is looked at; otherwise the
response is stored and every assertion is checked in authored order,
the failures being accumulated without short-circuit. -/
def TestCase.run (parseJson : String → Option Json)
    (outcome : Except String HttpResponse) (elapsed : Nat)
    (tc : TestCase) : TestCase :=
  match outcome with
  | Except.error e =>
    { tc with
      result := some (TestResult.failed elapsed
        [{ path := "request", expected := none, actual := none,
           message := e }]) }
  | Except.ok response =>
    let errors := tc.assertions.filterMap
      (fun a => checkErr parseJson a response)
    if errors.isEmpty then
      { tc with response := some response,
                result := some (TestResult.passed elapsed) }
    else
      { tc with response := some response,
                result := some (TestResult.failed elapsed errors) }

/-- One spawned unit of work of the executor: the test case it owns,
the environment it will meet (send outcome and elapsed time), and
whether the task panics instead of completing. -/
structure SpawnedTask where
  test : TestCase
  outcome : Except String HttpResponse
  elapsed : Nat
  panicked : Bool

/-- The await loop of Executor::run_tests: handles are awaited in spawn
order and each Ok result is pushed; a panicked handle is skipped. -/
def collectHandles : List (Option TestCase) → List TestCase
  | [] => []
  | some tc :: rest => tc :: collectHandles rest
  | none :: rest => collectHandles rest

/-- Executor::run_tests (executor.rs): every task is spawned in source
order; a task acquires a permit, runs its test case, releases the
permit. The semaphore (maxConcurrency) only schedules the tasks, it
does not change any result, so the returned value does not depend on
it; the permit discipline itself is modelled separately as the
transition system ExecStep below. -/
def Executor.run_tests (parseJson : String → Option Json)
    (_maxConcurrency : Nat) (tasks : List SpawnedTask) : List TestCase :=
  collectHandles (tasks.map (fun t =>
    if t.panicked then none
    else some (TestCase.run parseJson t.outcome t.elapsed t.test)))

/-- The phase a spawned executor task is in: waiting for a permit,
running while holding a permit, or done after releasing it. -/
inductive TaskStatus where
  | waiting : TaskStatus
  | running : TaskStatus
  | done : TaskStatus
deriving DecidableEq

/-- A scheduler state of the executor: the status of each spawned task,
in spawn order. -/
abbrev ExecState : Type := List TaskStatus

/-- How many tasks hold a permit in a state. -/
def countRunning (s : ExecState) : Nat :=
  List.countP (fun st => decide (st = TaskStatus.running)) s

/-- The semaphore discipline of Executor::run_tests as a transition
system: a waiting task may start when fewer than the permit count of
tasks are running (Semaphore::acquire succeeding), and a running task
may finish at any time (the permit dropping). Interleaving is
arbitrary: any task position may move. -/
inductive ExecStep (permits : Nat) : ExecState → ExecState → Prop where
  | acquire (pre post : List TaskStatus) :
      countRunning (pre ++ TaskStatus.waiting :: post) < permits →
      ExecStep permits (pre ++ TaskStatus.waiting :: post)
        (pre ++ TaskStatus.running :: post)
  | finish (pre post : List TaskStatus) :
      ExecStep permits (pre ++ TaskStatus.running :: post)
        (pre ++ TaskStatus.done :: post)

/-- The start state of a run of n tests: every task spawned, none yet
holding a permit. -/
def initExecState (n : Nat) : ExecState :=
  List.replicate n TaskStatus.waiting

/-- The finished state: every task done. -/
def doneExecState (n : Nat) : ExecState :=
  List.replicate n TaskStatus.done

/-- Each task contributes two pending transitions when waiting, one
when running, none when done; the total bounds the remaining steps. -/
def statusMeasure : TaskStatus → Nat
  | TaskStatus.waiting => 2
  | TaskStatus.running => 1
  | TaskStatus.done => 0

/-- The measure of a state: remaining transitions over all tasks. -/
def execMeasure (s : ExecState) : Nat :=
  (s.map statusMeasure).sum

/-- Decimal digit accumulation for the i64 parser: every character
must be an ASCII digit and at least one must be present. -/
def parseDigits : List Char → Option Nat
  | [] => none
  | cs =>
    cs.foldl
      (fun acc c =>
        match acc with
        | none => none
        | some n =>
          if 48 ≤ c.toNat ∧ c.toNat ≤ 57 then some (n * 10 + (c.toNat - 48))
          else none)
      (some 0)

/-- Rust str::parse for i64: an optional sign followed by decimal
digits, rejected when the value does not fit in 64 signed bits. -/
def parseI64 (tok : String) : Option Int :=
  let signed : Option Int :=
    match tok.toList with
    | [] => none
    | c :: rest =>
      if c = '-' then (parseDigits rest).map (fun n => -(n : Int))
      else if c = '+' then (parseDigits rest).map (fun n => (n : Int))
      else (parseDigits (c :: rest)).map (fun n => (n : Int))
  match signed with
  | none => none
  | some n => if -(2 ^ 63) ≤ n ∧ n ≤ 2 ^ 63 - 1 then some n else none

/-- Modelled from the spec: grammar.pest is absent from the sources, so
the token shapes its value rule hands to parse_value are taken from the
grammar of the specification: value is a quoted string (the token
includes its surrounding double quotes), a number token, or a boolean
token. -/
inductive ValueSyntax where
  | quoted (tok : String) : ValueSyntax
  | numberTok (tok : String) : ValueSyntax
  | booleanTok (tok : String) : ValueSyntax
deriving DecidableEq

/-- parse_value (parser.rs): a quoted string drops its first and last
character, a number token goes through i64 parsing (failing the whole
parse when it does not fit), a boolean token compares against true. -/
def parse_value : ValueSyntax → Except String Value
  | ValueSyntax.quoted tok =>
    Except.ok (Value.string (String.mk (tok.toList.drop 1).dropLast))
  | ValueSyntax.numberTok tok =>
    match parseI64 tok with
    | some n => Except.ok (Value.number n)
    | none => Except.error ("invalid digit found in string: " ++ tok)
  | ValueSyntax.booleanTok tok =>
    Except.ok (Value.bool (tok = "true"))

/-- parse_operator (parser.rs): the six operator tokens. -/
def parse_operator (tok : String) : Except String Operator :=
  if tok = "==" then Except.ok Operator.eq
  else if tok = "!=" then Except.ok Operator.ne
  else if tok = ">" then Except.ok Operator.gt
  else if tok = "<" then Except.ok Operator.lt
  else if tok = ">=" then Except.ok Operator.gte
  else if tok = "<=" then Except.ok Operator.lte
  else Except.error ("Unknown operator " ++ tok)

/-- The value-collection loop of parse_in_op: each token is parsed in
order and pushed; the first error aborts the block. -/
def parse_values : List ValueSyntax → Except String (List Value)
  | [] => Except.ok []
  | t :: ts =>
    match parse_value t with
    | Except.error e => Except.error e
    | Except.ok v =>
      match parse_values ts with
      | Except.error e => Except.error e
      | Except.ok vs => Except.ok (v :: vs)

/-- Modelled from the spec: grammar.pest is absent, so the shape of one
expect expression match is taken from the expect grammar of the
specification: a binary comparison, an IN list (one or more value
tokens), a BETWEEN with two value tokens of any value kind, an EXISTS,
or a bare path. -/
inductive ExpectSyntax where
  | binarySyn (path : String) (opTok : String) (valTok : ValueSyntax) :
      ExpectSyntax
  | inSyn (path : String) (valueToks : List ValueSyntax) : ExpectSyntax
  | betweenSyn (path : String) (minTok maxTok : ValueSyntax) : ExpectSyntax
  | existsSyn (path : String) : ExpectSyntax
  | unarySyn (path : String) : ExpectSyntax
deriving DecidableEq

/-- parse_assertion with its five helpers parse_binary_op, parse_in_op,
parse_between_op, parse_exists_op and parse_unary_path (parser.rs):
each grammar match is lifted to the corresponding Assertion variant.
parse_between_op parses its two endpoints with parse_value and performs
no numeric check on them. -/
def parse_assertion : ExpectSyntax → Except String Assertion
  | ExpectSyntax.binarySyn path opTok valTok =>
    match parse_operator opTok with
    | Except.error e => Except.error e
    | Except.ok op =>
      match parse_value valTok with
      | Except.error e => Except.error e
      | Except.ok v => Except.ok (Assertion.binary path op v)
  | ExpectSyntax.inSyn path valueToks =>
    match parse_values valueToks with
    | Except.error e => Except.error e
    | Except.ok vs => Except.ok (Assertion.inList path vs)
  | ExpectSyntax.betweenSyn path minTok maxTok =>
    match parse_value minTok with
    | Except.error e => Except.error e
    | Except.ok mn =>
      match parse_value maxTok with
      | Except.error e => Except.error e
      | Except.ok mx => Except.ok (Assertion.between path mn mx)
  | ExpectSyntax.existsSyn path => Except.ok (Assertion.existsOp path)
  | ExpectSyntax.unarySyn path => Except.ok (Assertion.unary path)

/-- The expect-collection loop of parse_test_block: assertions are
parsed and pushed in authored order, the first error aborting. -/
def parse_assertions : List ExpectSyntax → Except String (List Assertion)
  | [] => Except.ok []
  | e :: es =>
    match parse_assertion e with
    | Except.error err => Except.error err
    | Except.ok a =>
      match parse_assertions es with
      | Except.error err => Except.error err
      | Except.ok rest => Except.ok (a :: rest)

/-- Modelled from the spec: grammar.pest is absent, so the pieces the
request rule extracts are taken from the grammar of the specification:
an optional method token (copied as written, in whatever case the
author used), an optional URL token, header key/value token pairs, and
the optional raw BODY region. bodyRegion holds the text strictly
between the BODY and BODYEND keywords, newlines included. -/
structure RequestSyntax where
  methodToken : Option String
  urlToken : Option String
  headerTokens : List (String × String)
  bodyRegion : Option String

/-- Modelled from the spec: the body_content capture of the missing
grammar keeps the region verbatim except that exactly one leading
newline after BODY and exactly one trailing newline before BODYEND are
trimmed. Character-list core of the capture. -/
def bodyContentChars (region : List Char) : List Char :=
  let afterLead :=
    match region with
    | Char.ofNat 10 :: rest => rest
    | other => other
  if afterLead.getLast? = some (Char.ofNat 10) then afterLead.dropLast
  else afterLead

/-- Modelled from the spec: the body_content capture on strings. -/
def body_content (region : String) : String :=
  String.mk (bodyContentChars region.toList)

/-- parse_http_request (parser.rs): the method token is copied verbatim
with no upper-casing (the HttpRequest record is built directly, not
through HttpRequest::new); the URL token must be present and parse
(Url::parse being external, it is the parseUrl parameter, returning the
parsed form or nothing); headers are inserted as scanned; a body region
becomes a Text body holding its body_content capture. A missing method
defaults to the empty string. -/
def parse_http_request (parseUrl : String → Option String)
    (syn : RequestSyntax) : Except String HttpRequest :=
  match syn.urlToken with
  | none => Except.error "HTTP request missing URL"
  | some urlTok =>
    match parseUrl urlTok with
    | none => Except.error ("Invalid URL: " ++ urlTok)
    | some url =>
      Except.ok
        { method := syn.methodToken.getD "",
          url := url,
          headers := syn.headerTokens,
          body := syn.bodyRegion.map (fun region =>
            Body.text (body_content region)) }

/-- Modelled from the spec: one TEST block match of the missing
grammar: an optional name token, an optional request section, and the
authored expect expressions in order. -/
structure TestBlockSyntax where
  nameToken : Option String
  requestSyn : Option RequestSyntax
  expects : List ExpectSyntax

/-- parse_test_block (parser.rs): the request section is required; the
expects are lifted in order; the fresh test case starts with no
response and no result. -/
def parse_test_block (parseUrl : String → Option String)
    (blk : TestBlockSyntax) : Except String TestCase :=
  match (match blk.requestSyn with
         | some rs => parse_http_request parseUrl rs
         | none => Except.error "Test block missing HTTP request") with
  | Except.error e => Except.error e
  | Except.ok req =>
    match parse_assertions blk.expects with
    | Except.error e => Except.error e
    | Except.ok asserts =>
      Except.ok
        { name := blk.nameToken, request := req, response := none,
          assertions := asserts, result := none }

/-- The block loop of AxParser::parse_file (parser.rs): every test
block of the file is lifted in source order, the first failure
aborting the whole parse. -/
def parse_file (parseUrl : String → Option String) :
    List TestBlockSyntax → Except String (List TestCase)
  | [] => Except.ok []
  | blk :: blks =>
    match parse_test_block parseUrl blk with
    | Except.error e => Except.error e
    | Except.ok tc =>
      match parse_file parseUrl blks with
      | Except.error e => Except.error e
      | Except.ok tcs => Except.ok (tc :: tcs)

/-- The method whitelist match at the top of HttpRequest::call_request:
true exactly when the method string maps to a reqwest method. -/
def methodAccepted (m : String) : Bool :=
  m = "GET" || m = "POST" || m = "PUT" || m = "PATCH" || m = "DELETE"
    || m = "HEAD" || m = "OPTIONS"

/-- The pre-network prefix of HttpRequest::call_request: the method is
matched against the whitelist verbatim (no upper-casing happens here);
a miss returns the invalid-method error before the client request is
built, so before any network I/O; a hit proceeds to the network. -/
def call_request_gate (req : HttpRequest) : Except String Unit :=
  if methodAccepted req.method then Except.ok ()
  else Except.error ("Invalid HTTP method: " ++ req.method)

/-- C1: for every response r, path p and value v, the Ne binary
assertion checks Ok exactly when the path resolves to some value
different from v; and when the path does not resolve, the check fails
with the path-not-found AssertionFailure whose actual side is None,
even though a missing value is strictly different from v. -/
theorem check_ne_iff_resolved_and_ne (parseJson : String → Option Json)
    (r : HttpResponse) (p : String) (v : Value) :
    (Assertion.check parseJson (Assertion.binary p Operator.ne v) r
        = Except.ok () ↔
      ∃ a, resolve_path parseJson r p = some a ∧ a ≠ v) ∧
    (resolve_path parseJson r p = none →
      Assertion.check parseJson (Assertion.binary p Operator.ne v) r
        = Except.error
            { path := p, expected := some v.render, actual := none,
              message := pathNotFoundMsg p }) := by
  cases hres : resolve_path parseJson r p with
  | none =>
    refine ⟨?_, fun _ => by simp [Assertion.check, hres]⟩
    simp [Assertion.check, hres]
  | some a =>
    refine ⟨?_, fun hcontra => Option.noConfusion hcontra⟩
    by_cases hav : a = v
    · simp [Assertion.check, hres, compare, hav]
    · simp [Assertion.check, hres, compare, hav]

/-- Closed instance of check_ne_iff_resolved_and_ne: a missing body
path on a bodyless response with value 0. -/
theorem check_ne_iff_resolved_and_ne_witness :
    (Assertion.check (fun _ => none)
        (Assertion.binary "body.x" Operator.ne (Value.number 0))
        { request := none, duration := 0, status := 200, headers := [],
          body := none } = Except.ok () ↔
      ∃ a, resolve_path (fun _ => none)
          { request := none, duration := 0, status := 200, headers := [],
            body := none } "body.x" = some a ∧ a ≠ Value.number 0) ∧
    (resolve_path (fun _ => none)
        { request := none, duration := 0, status := 200, headers := [],
          body := none } "body.x" = none →
      Assertion.check (fun _ => none)
          (Assertion.binary "body.x" Operator.ne (Value.number 0))
          { request := none, duration := 0, status := 200, headers := [],
            body := none }
        = Except.error
            { path := "body.x", expected := some (Value.number 0).render,
              actual := none, message := pathNotFoundMsg "body.x" }) :=
  check_ne_iff_resolved_and_ne (fun _ => none)
    { request := none, duration := 0, status := 200, headers := [],
      body := none } "body.x" (Value.number 0)

/-- C7: a single-element In assertion checks Ok exactly when the
corresponding Eq binary assertion does, for every response, path and
value. -/
theorem in_singleton_iff_binary_eq (parseJson : String → Option Json)
    (r : HttpResponse) (p : String) (v : Value) :
    (Assertion.check parseJson (Assertion.inList p [v]) r = Except.ok ())
      ↔ (Assertion.check parseJson (Assertion.binary p Operator.eq v) r
          = Except.ok ()) := by
  cases hres : resolve_path parseJson r p with
  | none => simp [Assertion.check, hres]
  | some a =>
    by_cases hav : a = v
    · simp [Assertion.check, hres, compare, hav]
    · have hva : ¬v = a := fun h => hav h.symm
      simp [Assertion.check, hres, compare, hav, hva]

/-- Closed instance of in_singleton_iff_binary_eq at status 200 against
the value 200. -/
theorem in_singleton_iff_binary_eq_witness :
    (Assertion.check (fun _ => none)
        (Assertion.inList "status" [Value.number 200])
        { request := none, duration := 0, status := 200, headers := [],
          body := none } = Except.ok ())
      ↔ (Assertion.check (fun _ => none)
          (Assertion.binary "status" Operator.eq (Value.number 200))
          { request := none, duration := 0, status := 200, headers := [],
            body := none } = Except.ok ()) :=
  in_singleton_iff_binary_eq (fun _ => none)
    { request := none, duration := 0, status := 200, headers := [],
      body := none } "status" (Value.number 200)

/-- C5: when the send returns a transport error e, the run sets a
Failed result holding exactly one AssertionFailure, on path request,
whose message is the display string of e and whose expected and actual
sides are absent; the stored response is untouched and the outcome does
not depend on the assertion list, which is never evaluated. -/
theorem transport_error_single_request_failure
    (parseJson : String → Option Json) (e : String) (elapsed : Nat)
    (tc : TestCase) :
    (TestCase.run parseJson (Except.error e) elapsed tc).result
        = some (TestResult.failed elapsed
            [{ path := "request", expected := none, actual := none,
               message := e }]) ∧
    (TestCase.run parseJson (Except.error e) elapsed tc).response
        = tc.response ∧
    ∀ (l : List Assertion),
      (TestCase.run parseJson (Except.error e) elapsed
          { tc with assertions := l }).result
        = (TestCase.run parseJson (Except.error e) elapsed tc).result :=
  ⟨rfl, rfl, fun _ => rfl⟩

/-- C9: a run never changes the authored name, request or assertion
list of its test case, whatever the send outcome; only response and
result may change. -/
theorem run_preserves_authored_fields (parseJson : String → Option Json)
    (outcome : Except String HttpResponse) (elapsed : Nat)
    (tc : TestCase) :
    (TestCase.run parseJson outcome elapsed tc).name = tc.name ∧
    (TestCase.run parseJson outcome elapsed tc).request = tc.request ∧
    (TestCase.run parseJson outcome elapsed tc).assertions
      = tc.assertions := by
  cases outcome with
  | error e => exact ⟨rfl, rfl, rfl⟩
  | ok resp =>
    simp only [TestCase.run]
    split <;> exact ⟨rfl, rfl, rfl⟩

/-- C2 counterexample: parse_http_request copies the method token
verbatim, so a request built by the parser from the token get keeps the
method get, which differs from its upper-cased form GET; the claim that
methods are upper-cased at request-construction time fails on
parser-built requests. The last conjunct records the consequence: the
whitelist match would reject this request even though its upper-cased
method is whitelisted. -/
theorem parser_method_not_uppercased_cex :
    (parse_http_request some
        { methodToken := some "get", urlToken := some "http://h/",
          headerTokens := [], bodyRegion := none }).map
        (fun r => r.method) = Except.ok "get" ∧
    toUpperAscii "get" = "GET" ∧
    ("get" : String) ≠ "GET" ∧
    methodAccepted (toUpperAscii "get") = true ∧
    methodAccepted "get" = false :=
  ⟨rfl, by decide, by decide, by decide, by decide⟩

/-- A whitelisted method string is already upper-case, so upper-casing
it is the identity. -/
theorem toUpperAscii_of_methodAccepted (m : String)
    (h : methodAccepted m = true) : toUpperAscii m = m := by
  simp only [methodAccepted, Bool.or_eq_true, decide_eq_true_eq] at h
  rcases h with ((((((h | h) | h) | h) | h) | h) | h) <;> subst h <;>
    decide

/-- C2 as amended: any request whose method, after upper-casing, is
outside the whitelist is rejected by the pre-network gate of
call_request with the invalid-method error, before any network I/O
(the gate compares the method verbatim, and the whitelist holds only
upper-case verbs, so missing it after upper-casing implies missing it
verbatim); upper-casing itself happens only in HttpRequest::new, which
the parser does not use. -/
theorem invalid_method_rejected_before_io (req : HttpRequest)
    (m url : String)
    (h : methodAccepted (toUpperAscii req.method) = false) :
    call_request_gate req
        = Except.error ("Invalid HTTP method: " ++ req.method) ∧
    (HttpRequest.new m url).method = toUpperAscii m := by
  refine ⟨?_, rfl⟩
  have hacc : methodAccepted req.method = false := by
    cases hmm : methodAccepted req.method with
    | false => rfl
    | true =>
      rw [toUpperAscii_of_methodAccepted req.method hmm] at h
      rw [hmm] at h
      exact Bool.noConfusion h
  simp [call_request_gate, hacc]

/-- Closed instance of invalid_method_rejected_before_io: the method
TRACE is outside the whitelist even after upper-casing, so the gate
rejects it; and HttpRequest::new upper-cases get. -/
theorem invalid_method_rejected_before_io_witness :
    methodAccepted (toUpperAscii "TRACE") = false ∧
    (call_request_gate
        { method := "TRACE", url := "http://h/", headers := [],
          body := none }
      = Except.error ("Invalid HTTP method: " ++ "TRACE") ∧
    (HttpRequest.new "get" "http://h/").method = toUpperAscii "get") :=
  ⟨by decide,
    invalid_method_rejected_before_io
      { method := "TRACE", url := "http://h/", headers := [],
        body := none }
      "get" "http://h/" (by decide)⟩

/-- The body_content capture strips exactly one leading newline. -/
theorem bodyContentChars_cons_newline (rest : List Char) :
    bodyContentChars ('\n' :: rest)
      = (if rest.getLast? = some '\n' then rest.dropLast else rest) :=
  rfl

/-- C4: for any authored body text b, the parsed request body of a
block whose raw BODY region is newline, b, newline is exactly b as a
Text body: the capture trims exactly one leading newline after BODY
and one trailing newline before BODYEND and keeps the rest verbatim. -/
theorem body_region_trim_roundtrip (parseUrl : String → Option String)
    (syn : RequestSyntax) (b : List Char) (req : HttpRequest)
    (hbody : syn.bodyRegion = some (String.mk ('\n' :: (b ++ ['\n']))))
    (hok : parse_http_request parseUrl syn = Except.ok req) :
    req.body = some (Body.text (String.mk b)) := by
  cases hu : syn.urlToken with
  | none =>
    simp only [parse_http_request, hu] at hok
    exact Except.noConfusion hok
  | some urlTok =>
    cases hp : parseUrl urlTok with
    | none =>
      simp only [parse_http_request, hu, hp] at hok
      exact Except.noConfusion hok
    | some url =>
      simp only [parse_http_request, hu, hp, Except.ok.injEq] at hok
      rw [← hok]
      simp only [hbody, Option.map_some]
      have hchars : bodyContentChars ('\n' :: (b ++ ['\n'])) = b := by
        rw [bodyContentChars_cons_newline]
        simp [List.getLast?_concat, List.dropLast_concat]
      simp [body_content, String.toList, hchars]

/-- Closed instance of body_region_trim_roundtrip: a two-character
body hi wrapped in the newlines the grammar region carries. -/
theorem body_region_trim_roundtrip_witness :
    (({ methodToken := some "POST", urlToken := some "http://h/",
        headerTokens := [],
        bodyRegion := some (String.mk ('\n' :: 'h' :: 'i' :: '\n' :: []))
      } : RequestSyntax).bodyRegion
        = some (String.mk ('\n' :: (('h' :: 'i' :: []) ++ ['\n'])))) ∧
    (parse_http_request some
        { methodToken := some "POST", urlToken := some "http://h/",
          headerTokens := [],
          bodyRegion := some (String.mk ('\n' :: 'h' :: 'i' :: '\n' :: []))
        }
      = Except.ok
          { method := "POST", url := "http://h/", headers := [],
            body := some (Body.text (String.mk ('h' :: 'i' :: []))) }) ∧
    ({ method := "POST", url := "http://h/", headers := [],
       body := some (Body.text (String.mk ('h' :: 'i' :: []))) }
        : HttpRequest).body
      = some (Body.text (String.mk ('h' :: 'i' :: []))) :=
  ⟨rfl, rfl,
    body_region_trim_roundtrip some
      { methodToken := some "POST", urlToken := some "http://h/",
        headerTokens := [],
        bodyRegion := some (String.mk ('\n' :: 'h' :: 'i' :: '\n' :: [])) }
      ('h' :: 'i' :: [])
      { method := "POST", url := "http://h/", headers := [],
        body := some (Body.text (String.mk ('h' :: 'i' :: []))) }
      rfl rfl⟩

/-- The await loop keeps exactly the non-panicked tasks, each mapped
through its run, in spawn order. Shared helper for the executor
results. -/
theorem run_tests_eq_filter_map (parseJson : String → Option Json)
    (N : Nat) (tasks : List SpawnedTask) :
    Executor.run_tests parseJson N tasks
      = (tasks.filter (fun t => !t.panicked)).map
          (fun t => TestCase.run parseJson t.outcome t.elapsed t.test) := by
  induction tasks with
  | nil => rfl
  | cons t ts ih =>
    cases hp : t.panicked with
    | false =>
      simp only [Executor.run_tests] at ih ⊢
      simp [hp, collectHandles, List.filter_cons, ih]
    | true =>
      simp only [Executor.run_tests] at ih ⊢
      simp [hp, collectHandles, List.filter_cons, ih]

/-- C10: the executor returns the completed test cases in the same
relative order as the input list: it is exactly the input restricted
to the non-panicked tasks, each replaced by its run; with no panic the
output order equals the input order element for element. -/
theorem run_tests_preserves_input_order (parseJson : String → Option Json)
    (N : Nat) (tasks : List SpawnedTask) :
    Executor.run_tests parseJson N tasks
      = (tasks.filter (fun t => !t.panicked)).map
          (fun t => TestCase.run parseJson t.outcome t.elapsed t.test) ∧
    ((∀ t ∈ tasks, t.panicked = false) →
      Executor.run_tests parseJson N tasks
        = tasks.map
            (fun t => TestCase.run parseJson t.outcome t.elapsed t.test)) := by
  refine ⟨run_tests_eq_filter_map parseJson N tasks, fun hall => ?_⟩
  rw [run_tests_eq_filter_map parseJson N tasks]
  have : tasks.filter (fun t => !t.panicked) = tasks := by
    rw [List.filter_eq_self]
    intro t ht
    simp [hall t ht]
  rw [this]

/-- Closed instance of run_tests_preserves_input_order: one
non-panicked task whose send fails is returned, run, as the single
result. -/
theorem run_tests_preserves_input_order_witness :
    Executor.run_tests (fun _ => none) 2
        [SpawnedTask.mk
          (TestCase.mk none (HttpRequest.mk "GET" "http://h/" [] none)
            none [] none)
          (Except.error "boom") 3 false]
      = [TestCase.run (fun _ => none) (Except.error "boom") 3
          (TestCase.mk none (HttpRequest.mk "GET" "http://h/" [] none)
            none [] none)] :=
  (run_tests_preserves_input_order (fun _ => none) 2
      [SpawnedTask.mk
        (TestCase.mk none (HttpRequest.mk "GET" "http://h/" [] none)
          none [] none)
        (Except.error "boom") 3 false]).2
    (by
      intro t ht
      rw [List.mem_singleton] at ht
      subst ht
      rfl)

/-- Every failure produced by a check carries the path of the checked
assertion. Shared helper for the executor failure shape. -/
theorem check_error_path (parseJson : String → Option Json)
    (a : Assertion) (r : HttpResponse) (e : AssertionFailure)
    (h : Assertion.check parseJson a r = Except.error e) :
    e.path = a.path := by
  cases a <;>
    simp only [Assertion.check, Assertion.path] at h ⊢ <;>
    (repeat' split at h) <;>
    first
      | exact Except.noConfusion h
      | (rw [← Except.error.inj h])

/-- checkErr reports exactly the failures of check. Shared helper. -/
theorem checkErr_eq_some (parseJson : String → Option Json)
    (a : Assertion) (r : HttpResponse) (e : AssertionFailure) :
    checkErr parseJson a r = some e
      ↔ Assertion.check parseJson a r = Except.error e := by
  unfold checkErr
  cases hc : Assertion.check parseJson a r <;> simp

/-- Shape of the result field a run populates, for a fresh test case
(no response stored yet): the result is always set; a Failed result
has a non-empty error list whose entries are the request failure or
carry the path of one of the assertions; and when a response was
stored, the error list is exactly the in-order accumulation of the
failing checks against it. Shared helper. -/
theorem run_result_shape (parseJson : String → Option Json)
    (out : Except String HttpResponse) (el : Nat) (t0 : TestCase)
    (hfresh : t0.response = none) :
    ((TestCase.run parseJson out el t0).result).isSome = true ∧
    (∀ d errs,
      (TestCase.run parseJson out el t0).result
          = some (TestResult.failed d errs) →
      errs ≠ [] ∧
      ∀ e ∈ errs, e.path = "request" ∨
        ∃ a ∈ (TestCase.run parseJson out el t0).assertions,
          e.path = a.path) ∧
    (∀ d errs resp,
      (TestCase.run parseJson out el t0).result
          = some (TestResult.failed d errs) →
      (TestCase.run parseJson out el t0).response = some resp →
      errs = (TestCase.run parseJson out el t0).assertions.filterMap
          (fun a => checkErr parseJson a resp)) := by
  cases out with
  | error e =>
    refine ⟨rfl, ?_, ?_⟩
    · intro d errs h
      have h2 := Option.some.inj h
      injection h2 with hd herrs
      rw [← herrs]
      refine ⟨by simp, ?_⟩
      intro f hf
      rw [List.mem_singleton] at hf
      subst hf
      exact Or.inl rfl
    · intro d errs resp h hresp
      have : t0.response = some resp := hresp
      rw [hfresh] at this
      exact Option.noConfusion this
  | ok resp0 =>
    cases hE : t0.assertions.filterMap (fun a => checkErr parseJson a resp0)
      with
    | nil =>
      refine ⟨?_, ?_, ?_⟩
      · simp [TestCase.run, hE]
      · intro d errs h
        simp [TestCase.run, hE] at h
      · intro d errs resp h hresp
        simp [TestCase.run, hE] at h
    | cons e0 es =>
      refine ⟨?_, ?_, ?_⟩
      · simp [TestCase.run, hE]
      · intro d errs h
        simp only [TestCase.run, hE] at h ⊢
        simp only [List.isEmpty_cons] at h
        simp at h
        rcases h with ⟨hd, herrs⟩
        constructor
        · rw [← herrs]; simp
        · intro f hf
          rw [← herrs] at hf
          rw [← hE] at hf
          rcases List.mem_filterMap.mp hf with ⟨a, ha, hfa⟩
          refine Or.inr ⟨a, ?_, ?_⟩
          · simpa [TestCase.run, hE] using ha
          · exact check_error_path parseJson a resp0 f
              ((checkErr_eq_some parseJson a resp0 f).mp hfa)
      · intro d errs resp h hresp
        simp only [TestCase.run, hE] at h hresp ⊢
        simp at h hresp
        rcases h with ⟨hd, herrs⟩
        rw [← herrs, ← hresp]
        simp [hE]

/-- C6: every test case the executor returns has a populated result;
a Failed result has a non-empty error list, one entry per failing
assertion accumulated in authored order without short-circuit (the
filterMap equation against the stored response), and every entry
carries either the path of one of the assertions of the case or the
request path. The hypothesis states that the input cases are fresh
from the parser (no response stored yet). -/
theorem run_tests_failed_results_valid (parseJson : String → Option Json)
    (N : Nat) (tasks : List SpawnedTask)
    (hfresh : ∀ t ∈ tasks, t.test.response = none)
    (tc : TestCase) (htc : tc ∈ Executor.run_tests parseJson N tasks) :
    tc.result.isSome = true ∧
    (∀ d errs, tc.result = some (TestResult.failed d errs) →
      errs ≠ [] ∧
      ∀ e ∈ errs, e.path = "request" ∨
        ∃ a ∈ tc.assertions, e.path = a.path) ∧
    (∀ d errs resp, tc.result = some (TestResult.failed d errs) →
      tc.response = some resp →
      errs = tc.assertions.filterMap
          (fun a => checkErr parseJson a resp)) := by
  rw [run_tests_eq_filter_map] at htc
  rcases List.mem_map.mp htc with ⟨t, ht, rfl⟩
  have ht2 : t ∈ tasks := List.mem_of_mem_filter ht
  exact run_result_shape parseJson t.outcome t.elapsed t.test
    (hfresh t ht2)

/-- Closed instance of run_tests_failed_results_valid: the single
returned case of a one-task batch whose send fails. -/
theorem run_tests_failed_results_valid_witness :
    (TestCase.run (fun _ => none) (Except.error "boom") 3
        (TestCase.mk none (HttpRequest.mk "GET" "http://h/" [] none)
          none [] none)).result.isSome = true ∧
    (∀ d errs,
      (TestCase.run (fun _ => none) (Except.error "boom") 3
          (TestCase.mk none (HttpRequest.mk "GET" "http://h/" [] none)
            none [] none)).result = some (TestResult.failed d errs) →
      errs ≠ [] ∧
      ∀ e ∈ errs, e.path = "request" ∨
        ∃ a ∈ (TestCase.run (fun _ => none) (Except.error "boom") 3
            (TestCase.mk none (HttpRequest.mk "GET" "http://h/" [] none)
              none [] none)).assertions, e.path = a.path) ∧
    (∀ d errs resp,
      (TestCase.run (fun _ => none) (Except.error "boom") 3
          (TestCase.mk none (HttpRequest.mk "GET" "http://h/" [] none)
            none [] none)).result = some (TestResult.failed d errs) →
      (TestCase.run (fun _ => none) (Except.error "boom") 3
          (TestCase.mk none (HttpRequest.mk "GET" "http://h/" [] none)
            none [] none)).response = some resp →
      errs = (TestCase.run (fun _ => none) (Except.error "boom") 3
          (TestCase.mk none (HttpRequest.mk "GET" "http://h/" [] none)
            none [] none)).assertions.filterMap
          (fun a => checkErr (fun _ => none) a resp)) :=
  run_tests_failed_results_valid (fun _ => none) 1
    [SpawnedTask.mk
      (TestCase.mk none (HttpRequest.mk "GET" "http://h/" [] none)
        none [] none)
      (Except.error "boom") 3 false]
    (by
      intro t ht
      rw [List.mem_singleton] at ht
      subst ht
      rfl)
    (TestCase.run (fun _ => none) (Except.error "boom") 3
      (TestCase.mk none (HttpRequest.mk "GET" "http://h/" [] none)
        none [] none))
    (by
      simp [Executor.run_tests, collectHandles])

/-- C3 counterexample: a file whose single block authors a BETWEEN
with quoted-string endpoints parses successfully, and the resulting
Between assertion has String endpoints, not Number ones:
parse_between_op never checks the endpoint kind, and the value rule of
the grammar admits quoted strings and booleans. -/
theorem between_endpoints_non_numeric_cex :
    parse_file some
        [TestBlockSyntax.mk none
          (some (RequestSyntax.mk (some "GET") (some "http://h/") [] none))
          [ExpectSyntax.betweenSyn "status" (ValueSyntax.quoted "\"a\"")
            (ValueSyntax.quoted "\"b\"")]]
      = Except.ok
          [TestCase.mk none (HttpRequest.mk "GET" "http://h/" [] none)
            none
            [Assertion.between "status" (Value.string "a")
              (Value.string "b")]
            none] ∧
    (Value.string "a").isNumber = false ∧
    (Value.string "b").isNumber = false :=
  ⟨rfl, rfl, rfl⟩

/-- An ok parse of a non-empty token list yields a non-empty value
list: parse_values maps the tokens one for one. Shared helper. -/
theorem parse_values_ne_nil (toks : List ValueSyntax) (vs : List Value)
    (h : parse_values toks = Except.ok vs) (hne : toks ≠ []) :
    vs ≠ [] := by
  cases toks with
  | nil => exact absurd rfl hne
  | cons t ts =>
    simp only [parse_values] at h
    cases h1 : parse_value t with
    | error e => rw [h1] at h; exact Except.noConfusion h
    | ok v =>
      rw [h1] at h
      cases h2 : parse_values ts with
      | error e => rw [h2] at h; exact Except.noConfusion h
      | ok rest =>
        rw [h2] at h
        have h3 := Except.ok.inj h
        rw [← h3]
        simp

/-- An In assertion can only come out of an in expression whose token
list parse_values accepted. Shared helper. -/
theorem parse_assertion_in_nonempty (e : ExpectSyntax)
    (hwf : ∀ p toks, e = ExpectSyntax.inSyn p toks → toks ≠ [])
    (a : Assertion) (h : parse_assertion e = Except.ok a) :
    ∀ p vs, a = Assertion.inList p vs → vs ≠ [] := by
  intro p vs hav
  subst hav
  cases e with
  | binarySyn p2 opTok valTok =>
    simp only [parse_assertion] at h
    (repeat' split at h) <;> simp at h
  | inSyn p2 toks =>
    simp only [parse_assertion] at h
    cases hv : parse_values toks with
    | error err => rw [hv] at h; exact Except.noConfusion h
    | ok vs2 =>
      rw [hv] at h
      have h2 := Except.ok.inj h
      injection h2 with hp hvs
      rw [hvs] at hv
      exact parse_values_ne_nil toks vs hv (hwf p2 toks rfl)
  | betweenSyn p2 minTok maxTok =>
    simp only [parse_assertion] at h
    (repeat' split at h) <;> simp at h
  | existsSyn p2 => simp only [parse_assertion] at h; simp at h
  | unarySyn p2 => simp only [parse_assertion] at h; simp at h

/-- Every assertion of an ok parse_assertions run comes from one of
the authored expect expressions. Shared helper. -/
theorem parse_assertions_mem (es : List ExpectSyntax)
    (asserts : List Assertion)
    (h : parse_assertions es = Except.ok asserts)
    (a : Assertion) (ha : a ∈ asserts) :
    ∃ e ∈ es, parse_assertion e = Except.ok a := by
  induction es generalizing asserts with
  | nil =>
    simp only [parse_assertions] at h
    have h2 := Except.ok.inj h
    rw [← h2] at ha
    exact absurd ha (List.not_mem_nil a)
  | cons e es ih =>
    simp only [parse_assertions] at h
    cases h1 : parse_assertion e with
    | error err => rw [h1] at h; exact Except.noConfusion h
    | ok a0 =>
      rw [h1] at h
      cases h2 : parse_assertions es with
      | error err => rw [h2] at h; exact Except.noConfusion h
      | ok rest =>
        rw [h2] at h
        have h3 := Except.ok.inj h
        rw [← h3] at ha
        rcases List.mem_cons.mp ha with ha0 | harest
        · exact ⟨e, List.mem_cons_self e es, by rw [h1, ha0]⟩
        · rcases ih rest h2 harest with ⟨e2, he2, hok2⟩
          exact ⟨e2, List.mem_cons_of_mem e he2, hok2⟩

/-- The assertion list of an ok parse_test_block is the ok result of
parse_assertions on the authored expects. Shared helper. -/
theorem parse_test_block_assertions (parseUrl : String → Option String)
    (blk : TestBlockSyntax) (tc : TestCase)
    (h : parse_test_block parseUrl blk = Except.ok tc) :
    parse_assertions blk.expects = Except.ok tc.assertions := by
  simp only [parse_test_block] at h
  split at h
  · exact Except.noConfusion h
  · split at h
    · exact Except.noConfusion h
    · rename_i asserts hasserts
      have h2 := Except.ok.inj h
      rw [← h2]
      exact hasserts

/-- Every test case of an ok parse_file comes from one of the authored
blocks. Shared helper. -/
theorem parse_file_mem (parseUrl : String → Option String)
    (blocks : List TestBlockSyntax) (tcs : List TestCase)
    (h : parse_file parseUrl blocks = Except.ok tcs)
    (tc : TestCase) (htc : tc ∈ tcs) :
    ∃ blk ∈ blocks, parse_test_block parseUrl blk = Except.ok tc := by
  induction blocks generalizing tcs with
  | nil =>
    simp only [parse_file] at h
    have h2 := Except.ok.inj h
    rw [← h2] at htc
    exact absurd htc (List.not_mem_nil tc)
  | cons blk blks ih =>
    simp only [parse_file] at h
    cases h1 : parse_test_block parseUrl blk with
    | error err => rw [h1] at h; exact Except.noConfusion h
    | ok tc0 =>
      rw [h1] at h
      cases h2 : parse_file parseUrl blks with
      | error err => rw [h2] at h; exact Except.noConfusion h
      | ok rest =>
        rw [h2] at h
        have h3 := Except.ok.inj h
        rw [← h3] at htc
        rcases List.mem_cons.mp htc with h0 | hrest
        · exact ⟨blk, List.mem_cons_self blk blks, by rw [h1, h0]⟩
        · rcases ih rest h2 hrest with ⟨blk2, hblk2, hok2⟩
          exact ⟨blk2, List.mem_cons_of_mem blk hblk2, hok2⟩

/-- C3 as amended: in a successfully parsed file every In assertion
has a non-empty values list, given that every authored in expression
carries at least one value token, which the grammar of the
specification guarantees; the Between endpoints, however, keep the
authored value kind and need not be numeric (see the counterexample). -/
theorem in_values_nonempty_of_parse (parseUrl : String → Option String)
    (blocks : List TestBlockSyntax) (tcs : List TestCase)
    (hwf : ∀ blk ∈ blocks, ∀ e ∈ blk.expects, ∀ p toks,
      e = ExpectSyntax.inSyn p toks → toks ≠ [])
    (h : parse_file parseUrl blocks = Except.ok tcs) :
    ∀ tc ∈ tcs, ∀ a ∈ tc.assertions, ∀ p vs,
      a = Assertion.inList p vs → vs ≠ [] := by
  intro tc htc a ha p vs hav
  rcases parse_file_mem parseUrl blocks tcs h tc htc with ⟨blk, hblk, hblkok⟩
  have hasserts := parse_test_block_assertions parseUrl blk tc hblkok
  rcases parse_assertions_mem blk.expects tc.assertions hasserts a ha with
    ⟨e, he, heok⟩
  exact parse_assertion_in_nonempty e
    (fun p2 toks h2 => hwf blk hblk e he p2 toks h2) a heok p vs hav

/-- Closed instance of in_values_nonempty_of_parse: a file with one
block authoring a one-element IN list parses, and the values list of
its In assertion is non-empty. -/
theorem in_values_nonempty_of_parse_witness :
    parse_file some
        [TestBlockSyntax.mk none
          (some (RequestSyntax.mk (some "GET") (some "http://h/") [] none))
          [ExpectSyntax.inSyn "status" [ValueSyntax.numberTok "200"]]]
      = Except.ok
          [TestCase.mk none (HttpRequest.mk "GET" "http://h/" [] none)
            none [Assertion.inList "status" [Value.number 200]] none] ∧
    ([Value.number 200] : List Value) ≠ [] :=
  ⟨rfl,
    in_values_nonempty_of_parse some
      [TestBlockSyntax.mk none
        (some (RequestSyntax.mk (some "GET") (some "http://h/") [] none))
        [ExpectSyntax.inSyn "status" [ValueSyntax.numberTok "200"]]]
      [TestCase.mk none (HttpRequest.mk "GET" "http://h/" [] none)
        none [Assertion.inList "status" [Value.number 200]] none]
      (by
        intro blk hblk e he p toks heq
        rw [List.mem_singleton] at hblk
        subst hblk
        simp only [List.mem_singleton] at he
        subst he
        cases heq
        simp)
      rfl
      (TestCase.mk none (HttpRequest.mk "GET" "http://h/" [] none)
        none [Assertion.inList "status" [Value.number 200]] none)
      (List.mem_singleton.mpr rfl)
      (Assertion.inList "status" [Value.number 200])
      (List.mem_singleton.mpr rfl)
      "status" [Value.number 200] rfl⟩

/-- The running count of a state split around one task. Shared
helper. -/
theorem countRunning_split (pre post : List TaskStatus)
    (st : TaskStatus) :
    countRunning (pre ++ st :: post)
      = countRunning pre + countRunning post
        + (if st = TaskStatus.running then 1 else 0) := by
  simp only [countRunning, List.countP_append, List.countP_cons]
  cases st <;> simp <;> omega

/-- One scheduler step never pushes the running count past the permit
count, provided it was within it. Shared helper. -/
theorem execStep_countRunning_le (N : Nat) (s t : ExecState)
    (hst : ExecStep N s t) (hs : countRunning s ≤ N) :
    countRunning t ≤ N := by
  cases hst with
  | acquire pre post hlt =>
    rw [countRunning_split] at hlt ⊢
    simp at hlt ⊢
    omega
  | finish pre post =>
    rw [countRunning_split] at hs ⊢
    simp at hs ⊢
    omega

/-- One scheduler step keeps the number of tasks. Shared helper. -/
theorem execStep_length (N : Nat) (s t : ExecState)
    (hst : ExecStep N s t) : t.length = s.length := by
  cases hst <;> simp

/-- One scheduler step strictly decreases the measure. Shared
helper. -/
theorem execStep_measure_lt (N : Nat) (s t : ExecState)
    (hst : ExecStep N s t) : execMeasure t < execMeasure s := by
  cases hst <;>
    simp [execMeasure, statusMeasure, List.map_append, List.sum_append]

/-- Nothing runs in the start state. Shared helper. -/
theorem countRunning_init (n : Nat) :
    countRunning (initExecState n) = 0 := by
  induction n with
  | zero => rfl
  | succ k ih =>
    simp only [initExecState, List.replicate, countRunning,
      List.countP_cons] at ih ⊢
    simp [ih]

/-- The start state spawns one task per test. Shared helper. -/
theorem length_init (n : Nat) : (initExecState n).length = n := by
  simp [initExecState]

/-- The start state has measure twice the task count. Shared
helper. -/
theorem execMeasure_init (n : Nat) : execMeasure (initExecState n) = 2 * n := by
  induction n with
  | zero => rfl
  | succ k ih =>
    simp only [initExecState, List.replicate, execMeasure, List.map_cons,
      List.sum_cons] at ih ⊢
    simp [statusMeasure] at ih ⊢
    omega

/-- Along any reachable state the running count stays within the
permits, the task count is preserved, and the measure never grows.
Shared helper. -/
theorem reachable_invariant (N n : Nat) (s : ExecState)
    (h : Relation.ReflTransGen (ExecStep N) (initExecState n) s) :
    countRunning s ≤ N ∧ s.length = n ∧ execMeasure s ≤ 2 * n := by
  induction h with
  | refl =>
    refine ⟨?_, length_init n, ?_⟩
    · rw [countRunning_init]; exact Nat.zero_le N
    · rw [execMeasure_init]
  | tail hsteps hstep ih =>
    rcases ih with ⟨hc, hl, hm⟩
    refine ⟨execStep_countRunning_le N _ _ hstep hc, ?_, ?_⟩
    · rw [execStep_length N _ _ hstep, hl]
    · exact le_of_lt (lt_of_lt_of_le (execStep_measure_lt N _ _ hstep) hm)

/-- A state of the right task count that is not all done can always
step when at least one permit exists. Shared helper. -/
theorem exec_progress (N n : Nat) (hN : 1 ≤ N) (s : ExecState)
    (hlen : s.length = n) (hrun : countRunning s ≤ N)
    (hne : s ≠ doneExecState n) : ∃ t, ExecStep N s t := by
  by_cases hrunmem : TaskStatus.running ∈ s
  · rcases List.append_of_mem hrunmem with ⟨pre, post, rfl⟩
    exact ⟨pre ++ TaskStatus.done :: post, ExecStep.finish pre post⟩
  · have hzero : countRunning s = 0 := by
      rw [countRunning, List.countP_eq_zero]
      intro st hst
      simp only [decide_eq_true_eq]
      intro heq
      rw [heq] at hst
      exact hrunmem hst
    by_cases hwaitmem : TaskStatus.waiting ∈ s
    · rcases List.append_of_mem hwaitmem with ⟨pre, post, rfl⟩
      refine ⟨pre ++ TaskStatus.running :: post, ExecStep.acquire pre post ?_⟩
      rw [hzero]
      omega
    · exfalso
      apply hne
      rw [doneExecState, List.eq_replicate_iff]
      refine ⟨hlen, ?_⟩
      intro st hst
      cases st with
      | waiting => exact absurd hst hwaitmem
      | running => exact absurd hst hrunmem
      | done => rfl

/-- Chains of scheduler steps, counted: k steps from the first state
to the second. Shared helper. -/
def StepsN (N : Nat) : Nat → ExecState → ExecState → Prop
  | 0, s, t => s = t
  | k + 1, s, t => ∃ u, ExecStep N s u ∧ StepsN N k u t

/-- A chain of k steps pays k units of measure. Shared helper. -/
theorem stepsN_measure (N k : Nat) (s t : ExecState)
    (h : StepsN N k s t) : execMeasure t + k ≤ execMeasure s := by
  induction k generalizing s with
  | zero => rw [h]; omega
  | succ m ih =>
    rcases h with ⟨u, hstep, hrest⟩
    have h1 := execStep_measure_lt N s u hstep
    have h2 := ih u hrest
    omega

/-- C8: for every permit count of at least one and every reachable
scheduler state of a finite batch, the number of tasks holding a
permit never exceeds the permit count; every state other than
all-done can still step (so maximal executions end with every task
done); and no execution from a reachable state takes more than twice
the batch size of further steps, so the executor terminates. -/
theorem executor_bounded_and_terminating (n N : Nat) (hN : 1 ≤ N)
    (s : ExecState)
    (hreach : Relation.ReflTransGen (ExecStep N) (initExecState n) s) :
    countRunning s ≤ N ∧
    (s ≠ doneExecState n → ∃ t, ExecStep N s t) ∧
    (∀ k t, StepsN N k s t → k ≤ 2 * n) := by
  rcases reachable_invariant N n s hreach with ⟨hc, hl, hm⟩
  refine ⟨hc, fun hne => exec_progress N n hN s hl hc hne, ?_⟩
  intro k t hsteps
  have := stepsN_measure N k s t hsteps
  omega

/-- Closed instance of executor_bounded_and_terminating: one task,
one permit, at the start state. -/
theorem executor_bounded_and_terminating_witness :
    1 ≤ 1 ∧
    (countRunning (initExecState 1) ≤ 1 ∧
     (initExecState 1 ≠ doneExecState 1 →
        ∃ t, ExecStep 1 (initExecState 1) t) ∧
     (∀ k t, StepsN 1 k (initExecState 1) t → k ≤ 2 * 1)) :=
  ⟨le_refl 1,
    executor_bounded_and_terminating 1 1 (le_refl 1) (initExecState 1)
      Relation.ReflTransGen.refl⟩

end Axotly
